import Mathlib

/-!
Verification of the LinkedIn saved-jobs scraping engine: link extraction with
normalization and deduplication (`SavedJobsScraper._extract_job_urls` and the
per-page accumulator in `scrape_saved_jobs.main`), click-driven pagination,
scroll-driven pagination, the login-detection polling loop of
`create_session.create_session`, and the error-handling and early-return
behaviour of `SavedJobsScraper.scrape`.

Strings of the Python source are modelled as lists of characters, so that the
string operations used by the code (`in`, `split("?")[0]`, `startswith`,
concatenation) become executable list functions.
-/

set_option maxRecDepth 8000

namespace LinkedinScraper

/-- Characters of a Python string; hrefs and URLs are modelled as `List Char`. -/
abbrev Str := List Char

/-- Python `pat in h` substring membership test. -/
def hasSubstr (pat : Str) : Str → Bool
  | [] => pat.isPrefixOf []
  | c :: rest => pat.isPrefixOf (c :: rest) || hasSubstr pat rest

/-- The href pattern `"/jobs/view/"` selecting job links. -/
def jobsViewPat : Str := "/jobs/view/".toList

/-- The scheme test string of `clean_url.startswith("http")`. -/
def httpPat : Str := "http".toList

/-- The base origin prepended to relative hrefs: `"https://www.linkedin.com"`. -/
def linkedinOrigin : Str := "https://www.linkedin.com".toList

/-- The saved-jobs page URL used by `SavedJobsScraper.scrape`. -/
def savedJobsUrl : Str := "https://www.linkedin.com/my-items/saved-jobs/".toList

/-- An anchor element as seen by an extraction loop: reading its `href`
attribute either raises (a stale DOM handle, `Anchor.stale`) or yields
`None` or a string. -/
inductive Anchor where
  | stale : Anchor
  | href : Option Str → Anchor
deriving DecidableEq

/-- Python `href.split("?")[0] if "?" in href else href`. -/
def stripQuery (h : Str) : Str :=
  if '?' ∈ h then h.takeWhile (fun c => c ≠ '?') else h

/-- The normalization applied to one matching href: strip the query string,
then qualify a relative path against the base origin
(`if not clean_url.startswith("http"): clean_url = f"https://www.linkedin.com{clean_url}"`). -/
def normalizeHref (h : Str) : Str :=
  let clean := stripQuery h
  if httpPat.isPrefixOf clean then clean else linkedinOrigin ++ clean

/-- State of the loop in `SavedJobsScraper._extract_job_urls`: the output list
`job_urls` and the set `seen_urls`, the latter modelled by a list queried only
through membership. -/
structure ExtractState where
  job_urls : List Str
  seen_urls : List Str
deriving DecidableEq

/-- One iteration of the `for link in job_links` body of
`SavedJobsScraper._extract_job_urls`: a raising element is swallowed
(`except ...: continue`); an absent, empty or non-matching href is skipped;
otherwise the href is normalized and appended unless already seen. -/
def extractStep (st : ExtractState) (a : Anchor) : ExtractState :=
  match a with
  | Anchor.stale => st
  | Anchor.href hrefOpt =>
    match hrefOpt with
    | none => st
    | some h =>
      if h = [] ∨ ¬ hasSubstr jobsViewPat h then st
      else
        let clean := normalizeHref h
        if clean ∈ st.seen_urls then st
        else ⟨st.job_urls ++ [clean], clean :: st.seen_urls⟩

/-- The `for link in job_links` loop of `SavedJobsScraper._extract_job_urls`,
with the leading `if len(job_urls) >= limit: break`. -/
def extractLoop (limit : Nat) : List Anchor → ExtractState → ExtractState
  | [], st => st
  | a :: rest, st =>
    if limit ≤ st.job_urls.length then st
    else extractLoop limit rest (extractStep st a)

/-- `SavedJobsScraper._extract_job_urls`: the locator query may itself raise,
in which case the outer `except` logs a warning and the list accumulated so
far (empty) is returned. -/
def extract_job_urls (anchors : Except Str (List Anchor)) (limit : Nat) : List Str :=
  match anchors with
  | Except.error _ => []
  | Except.ok links => (extractLoop limit links ⟨[], []⟩).job_urls

/-- The normalized URL contributed by one anchor, if any: `none` exactly when
the extraction loop skips the element. -/
def anchorUrl (a : Anchor) : Option Str :=
  match a with
  | Anchor.stale => none
  | Anchor.href hrefOpt =>
    match hrefOpt with
    | none => none
    | some h =>
      if h = [] ∨ ¬ hasSubstr jobsViewPat h then none
      else some (normalizeHref h)

/-- The stream of normalized URLs produced by a sequence of anchors, before
deduplication and truncation. -/
def normStream (anchors : List Anchor) : List Str :=
  anchors.filterMap anchorUrl

/-- First-seen-order deduplication against an ambient set of already-seen
strings (the specification-side description of the accumulators). -/
def dedupFirstAux (seen : List Str) : List Str → List Str
  | [] => []
  | x :: xs =>
    if x ∈ seen then dedupFirstAux seen xs
    else x :: dedupFirstAux (x :: seen) xs

/-- First-seen-order deduplication of a list of strings. -/
def dedupFirst (l : List Str) : List Str := dedupFirstAux [] l

/-- In `scrape_saved_jobs.main`, the `for link in job_links` body accumulating
into `all_job_urls`, deduplicating by list membership; a raising element is
swallowed by the bare `except`. -/
def accumLink (all : List Str) (a : Anchor) : List Str :=
  match a with
  | Anchor.stale => all
  | Anchor.href hrefOpt =>
    match hrefOpt with
    | none => all
    | some h =>
      if h = [] ∨ ¬ hasSubstr jobsViewPat h then all
      else
        let clean := normalizeHref h
        if clean ∈ all then all else all ++ [clean]

/-- One page-worth of accumulation in `scrape_saved_jobs.main`: fold the
per-link body over the page's anchors. -/
def extractPage (anchors : List Anchor) (all : List Str) : List Str :=
  anchors.foldl accumLink all

/-- One page as observed by the pagination loop of `scrape_saved_jobs.main`:
the job-link anchors it renders, and the "Next" control — `none` when
`next_button.count()` is `0`, `some disabled` when present with the given
`is_disabled()` result. -/
structure PageObs where
  anchors : List Anchor
  nextButton : Option Bool
deriving DecidableEq

/-- A page on which the pagination loop stops: the next-page control is
absent, or present but disabled. -/
def terminal (p : PageObs) : Bool :=
  match p.nextButton with
  | none => true
  | some disabled => disabled

/-- The `while True` click-pagination loop of `scrape_saved_jobs.main`, run
against the successive page observations of `script`: extract the current
page's links into the accumulator, then stop if the "Next" control is absent
or disabled, else click (counted in the second component) and continue on the
next observation. -/
def clickPagerLoop : List PageObs → List Str → List Str × Nat
  | [], all => (all, 0)
  | p :: rest, all =>
    let all2 := extractPage p.anchors all
    match p.nextButton with
    | none => (all2, 0)
    | some disabled =>
      if disabled then (all2, 0)
      else
        let r := clickPagerLoop rest all2
        (r.1, r.2 + 1)

/-- The anchors of the pages the click-pagination loop actually visits: every
page up to and including the first terminal one. -/
def visitedAnchors : List PageObs → List Anchor
  | [] => []
  | p :: rest => p.anchors ++ (if terminal p then [] else visitedAnchors rest)

/-- Modelled from the spec: `BaseScraper.scroll_page_to_bottom` is not under
`src/`; per the spec's ScrollPager, take an initial item-count sample, then up
to `maxScrolls` times issue one scroll, wait, and sample again, stopping as
soon as a sample equals the previous one. `counts k` is the sample taken
after the `k`-th scroll (`counts 0` the initial sample); `k` scrolls have
been issued so far and `fuel` iterations remain. Returns the number of
scrolls issued. -/
def scrollPagerAux (counts : Nat → Nat) : Nat → Nat → Nat
  | k, 0 => k
  | k, fuel + 1 =>
    if counts (k + 1) = counts k then k + 1
    else scrollPagerAux counts (k + 1) fuel

/-- Modelled from the spec: the ScrollPager run with at most `maxScrolls`
scroll actions; returns how many scrolls were issued. -/
def scrollPager (counts : Nat → Nat) (maxScrolls : Nat) : Nat :=
  scrollPagerAux counts 0 maxScrolls

/-- Outcome of the login-detection polling loop of `create_session`:
the final `logged_in` flag, the number of samples taken, and one report per
sample — elapsed seconds, plus remaining seconds when the sample did not
observe a logged-in state. -/
structure PollResult where
  logged_in : Bool
  samples : Nat
  reports : List (Nat × Option Nat)
deriving DecidableEq

/-- The `for attempt in range(max_attempts)` loop of `create_session`,
entered at index `attempt` with `fuel` iterations left. Each iteration sleeps
one 10-second interval, samples `is_logged_in` (the oracle `detect`, whose
implementation is outside `src/`), computes `time_elapsed = (attempt+1)*10`
and `time_remaining = 30*10 - time_elapsed`, and on a logged-in sample prints
the elapsed time and breaks, otherwise prints elapsed and remaining time and
continues. -/
def pollFrom (detect : Nat → Bool) : Nat → Nat → PollResult
  | _, 0 => ⟨false, 0, []⟩
  | attempt, fuel + 1 =>
    let logged_in := detect attempt
    let time_elapsed := (attempt + 1) * 10
    let time_remaining := 30 * 10 - time_elapsed
    if logged_in then ⟨true, 1, [(time_elapsed, none)]⟩
    else
      let r := pollFrom detect (attempt + 1) fuel
      ⟨r.logged_in, r.samples + 1, (time_elapsed, some time_remaining) :: r.reports⟩

/-- The login-detection polling loop of `create_session`: `max_attempts = 30`
samples, 10 seconds apart, over a `30 * 10 = 300`-second budget. -/
def create_session_poll (detect : Nat → Bool) : PollResult :=
  pollFrom detect 0 30

/-- Observable events of one `SavedJobsScraper.scrape` run: the four
`ProgressCallback` methods, and markers for the browser-facing actions the
method attempts. -/
inductive Event where
  | on_start : Str → Str → Event
  | navigate : Str → Event
  | on_progress : Str → Nat → Event
  | check_login : Event
  | wait_selector : Str → Event
  | focus : Event
  | close_modals : Event
  | scroll : Event
  | on_complete : Str → List Str → Event
  | on_error : Str → Event
deriving DecidableEq

/-- Outcomes of the browser-facing steps of `SavedJobsScraper.scrape`, whose
implementations (in `BaseScraper` and Playwright) are outside this module:
`some d` means the step raises an exception whose description is `d`. The
locator query of `_extract_job_urls` may also raise, with the failure
swallowed there. -/
structure ScrapeEnv where
  navigate_and_wait : Option Str
  ensure_logged_in : Option Str
  wait_for_selector : Option Str
  wait_and_focus : Option Str
  close_modals : Option Str
  scroll_page_to_bottom : Option Str
  job_links : Except Str (List Anchor)

/-- The message of the `ScrapingError` raised by `SavedJobsScraper.scrape`:
`f"Failed to scrape saved jobs: {e}"`. -/
def scrapingErrorMsg (d : Str) : Str :=
  "Failed to scrape saved jobs: ".toList ++ d

/-- The `except Exception` handler of `SavedJobsScraper.scrape`: report the
failure through `callback.on_error`, then raise `ScrapingError` wrapping the
cause's description. -/
def failWith (ev : List Event) (d : Str) : List Event × Except Str (List Str) :=
  (ev ++ [Event.on_error d], Except.error (scrapingErrorMsg d))

/-- `SavedJobsScraper.scrape`: report `on_start`; return `[]` at once when
`limit <= 0`; otherwise run the navigation, login check, selector wait,
focus, modal-closing and scrolling steps in order, stopping at the first
failure per `failWith`, and finally extract, report progress and completion,
and return the URL list. -/
def scrape (env : ScrapeEnv) (limit : Int) : List Event × Except Str (List Str) :=
  let ev0 := [Event.on_start "SavedJobs".toList savedJobsUrl]
  if limit ≤ 0 then (ev0, Except.ok [])
  else
    let ev1 := ev0 ++ [Event.navigate savedJobsUrl]
    match env.navigate_and_wait with
    | some d => failWith ev1 d
    | none =>
      let ev2 := ev1 ++ [Event.on_progress "Navigated to saved jobs".toList 10, Event.check_login]
      match env.ensure_logged_in with
      | some d => failWith ev2 d
      | none =>
        let ev3 := ev2 ++ [Event.wait_selector "main".toList]
        match env.wait_for_selector with
        | some d => failWith ev3 d
        | none =>
          let ev4 := ev3 ++ [Event.focus]
          match env.wait_and_focus with
          | some d => failWith ev4 d
          | none =>
            let ev5 := ev4 ++ [Event.close_modals]
            match env.close_modals with
            | some d => failWith ev5 d
            | none =>
              let ev6 := ev5 ++ [Event.scroll]
              match env.scroll_page_to_bottom with
              | some d => failWith ev6 d
              | none =>
                let urls := extract_job_urls env.job_links limit.toNat
                let ev7 := ev6 ++
                  [Event.on_progress ("Found ".toList ++ (toString urls.length).toList
                      ++ " saved jobs".toList) 90,
                   Event.on_complete "SavedJobs".toList urls]
                (ev7, Except.ok urls)

/-- The description of the first step of `SavedJobsScraper.scrape`'s `try`
block that raises, if any. -/
def firstFailure (env : ScrapeEnv) : Option Str :=
  match env.navigate_and_wait with
  | some d => some d
  | none =>
    match env.ensure_logged_in with
    | some d => some d
    | none =>
      match env.wait_for_selector with
      | some d => some d
      | none =>
        match env.wait_and_focus with
        | some d => some d
        | none =>
          match env.close_modals with
          | some d => some d
          | none => env.scroll_page_to_bottom

/-- The three hrefs of the spec's extraction example. -/
def c3_anchors : List Anchor :=
  [Anchor.href (some "/jobs/view/111?pos=1".toList),
   Anchor.href (some "/jobs/view/111?pos=2".toList),
   Anchor.href (some "/jobs/view/222".toList)]

/-- Two anchors with distinct normalized URLs, for exercising the limit. -/
def c2_anchors : List Anchor :=
  [Anchor.href (some "/jobs/view/1".toList),
   Anchor.href (some "/jobs/view/2".toList)]

/-- A two-page pagination script whose second page has a disabled "Next"
control. -/
def c4_script : List PageObs :=
  [⟨[Anchor.href (some "/jobs/view/1".toList)], some false⟩,
   ⟨[Anchor.href (some "/jobs/view/2".toList)], some true⟩,
   ⟨[Anchor.href (some "/jobs/view/3".toList)], some false⟩]

/-- An environment whose navigation step fails. -/
def c6_env : ScrapeEnv :=
  { navigate_and_wait := some "net::ERR_TIMED_OUT".toList
    ensure_logged_in := none
    wait_for_selector := none
    wait_and_focus := none
    close_modals := none
    scroll_page_to_bottom := none
    job_links := Except.ok [] }

/-- An environment in which every step would succeed. -/
def c9_env : ScrapeEnv :=
  { navigate_and_wait := none
    ensure_logged_in := none
    wait_for_selector := none
    wait_and_focus := none
    close_modals := none
    scroll_page_to_bottom := none
    job_links := Except.ok c3_anchors }

/-- An anchor whose href is absolute with a query string. -/
def c10_anchors : List Anchor :=
  [Anchor.href (some "https://www.linkedin.com/jobs/view/9?refId=abc".toList),
   Anchor.href (some "/jobs/view/10?x=1".toList)]

theorem extractStep_eq (st : ExtractState) (a : Anchor) :
    extractStep st a = match anchorUrl a with
      | none => st
      | some u => if u ∈ st.seen_urls then st else ⟨st.job_urls ++ [u], u :: st.seen_urls⟩ := by
  cases a with
  | stale => rfl
  | href hrefOpt =>
    cases hrefOpt with
    | none => rfl
    | some h =>
      by_cases hv : h = [] ∨ ¬ hasSubstr jobsViewPat h
      · simp only [extractStep, anchorUrl, if_pos hv]
      · simp only [extractStep, anchorUrl, if_neg hv]

theorem accumLink_eq (all : List Str) (a : Anchor) :
    accumLink all a = match anchorUrl a with
      | none => all
      | some u => if u ∈ all then all else all ++ [u] := by
  cases a with
  | stale => rfl
  | href hrefOpt =>
    cases hrefOpt with
    | none => rfl
    | some h =>
      by_cases hv : h = [] ∨ ¬ hasSubstr jobsViewPat h
      · simp only [accumLink, anchorUrl, if_pos hv]
      · simp only [accumLink, anchorUrl, if_neg hv]

theorem dedupFirstAux_congr (l : List Str) :
    ∀ s₁ s₂ : List Str, (∀ x, x ∈ s₁ ↔ x ∈ s₂) → dedupFirstAux s₁ l = dedupFirstAux s₂ l := by
  induction l with
  | nil => intro s₁ s₂ _; rfl
  | cons x xs ih =>
    intro s₁ s₂ h
    by_cases hx : x ∈ s₁
    · have hx2 : x ∈ s₂ := (h x).mp hx
      simp only [dedupFirstAux, if_pos hx, if_pos hx2]
      exact ih s₁ s₂ h
    · have hx2 : x ∉ s₂ := fun hc => hx ((h x).mpr hc)
      simp only [dedupFirstAux, if_neg hx, if_neg hx2]
      exact congrArg (x :: ·) (ih (x :: s₁) (x :: s₂) (by intro y; simp [List.mem_cons, h y]))

theorem extractLoop_dedup (limit : Nat) (anchors : List Anchor) :
    ∀ st : ExtractState,
      (extractLoop limit anchors st).job_urls
        = st.job_urls ++ (dedupFirstAux st.seen_urls (normStream anchors)).take (limit - st.job_urls.length) := by
  induction anchors with
  | nil => intro st; simp [extractLoop, normStream, dedupFirstAux]
  | cons a rest ih =>
    intro st
    by_cases hl : limit ≤ st.job_urls.length
    · have h0 : limit - st.job_urls.length = 0 := by omega
      simp [extractLoop, hl, h0]
    · cases hu : anchorUrl a with
      | none =>
        have hst : extractStep st a = st := by rw [extractStep_eq, hu]
        have hns : normStream (a :: rest) = normStream rest := by
          simp [normStream, List.filterMap_cons, hu]
        simp only [extractLoop, if_neg hl, hst, hns]
        exact ih st
      | some u =>
        have hns : normStream (a :: rest) = u :: normStream rest := by
          simp [normStream, List.filterMap_cons, hu]
        by_cases hm : u ∈ st.seen_urls
        · have hst : extractStep st a = st := by rw [extractStep_eq, hu]; simp [hm]
          simp only [extractLoop, if_neg hl, hst, hns, dedupFirstAux, if_pos hm]
          exact ih st
        · have hst : extractStep st a = ⟨st.job_urls ++ [u], u :: st.seen_urls⟩ := by
            rw [extractStep_eq, hu]; simp [hm]
          have harith : limit - st.job_urls.length = (limit - (st.job_urls.length + 1)) + 1 := by
            omega
          simp only [extractLoop, if_neg hl, hst, hns, dedupFirstAux, if_neg hm]
          rw [ih ⟨st.job_urls ++ [u], u :: st.seen_urls⟩]
          simp [harith, List.append_assoc]

theorem extractPage_dedup (anchors : List Anchor) :
    ∀ all : List Str, extractPage anchors all = all ++ dedupFirstAux all (normStream anchors) := by
  induction anchors with
  | nil => intro all; simp [extractPage, normStream, dedupFirstAux]
  | cons a rest ih =>
    intro all
    have hfold : extractPage (a :: rest) all = extractPage rest (accumLink all a) := rfl
    cases hu : anchorUrl a with
    | none =>
      have hacc : accumLink all a = all := by rw [accumLink_eq, hu]
      have hns : normStream (a :: rest) = normStream rest := by
        simp [normStream, List.filterMap_cons, hu]
      rw [hfold, hacc, hns]
      exact ih all
    | some u =>
      have hns : normStream (a :: rest) = u :: normStream rest := by
        simp [normStream, List.filterMap_cons, hu]
      by_cases hm : u ∈ all
      · have hacc : accumLink all a = all := by rw [accumLink_eq, hu]; simp [hm]
        rw [hfold, hacc, hns]
        simp only [dedupFirstAux, if_pos hm]
        exact ih all
      · have hacc : accumLink all a = all ++ [u] := by rw [accumLink_eq, hu]; simp [hm]
        have hcongr : dedupFirstAux (all ++ [u]) (normStream rest)
            = dedupFirstAux (u :: all) (normStream rest) := by
          apply dedupFirstAux_congr
          intro y; simp [List.mem_append, List.mem_cons, or_comm]
        rw [hfold, hacc, hns]
        simp only [dedupFirstAux, if_neg hm]
        rw [ih (all ++ [u]), hcongr]
        simp [List.append_assoc]

theorem dedupFirstAux_nodup_disjoint (l : List Str) :
    ∀ seen : List Str, (dedupFirstAux seen l).Nodup ∧ ∀ x ∈ dedupFirstAux seen l, x ∉ seen := by
  induction l with
  | nil => intro seen; simp [dedupFirstAux]
  | cons x xs ih =>
    intro seen
    by_cases hx : x ∈ seen
    · simpa [dedupFirstAux, hx] using ih seen
    · simp only [dedupFirstAux, if_neg hx]
      obtain ⟨hnd, hdisj⟩ := ih (x :: seen)
      refine ⟨List.nodup_cons.mpr ⟨fun hc => (hdisj x hc) (List.mem_cons_self x seen), hnd⟩, ?_⟩
      intro y hy
      rcases List.mem_cons.mp hy with hy | hy
      · exact hy ▸ hx
      · exact fun hc => (hdisj y hy) (List.mem_cons_of_mem x hc)

theorem dedupFirst_nodup (l : List Str) : (dedupFirst l).Nodup :=
  (dedupFirstAux_nodup_disjoint l []).1

theorem dedupFirstAux_subset (l : List Str) :
    ∀ (seen : List Str) (x : Str), x ∈ dedupFirstAux seen l → x ∈ l := by
  induction l with
  | nil => intro seen x hx; simp [dedupFirstAux] at hx
  | cons y ys ih =>
    intro seen x hx
    by_cases hy : y ∈ seen
    · simp only [dedupFirstAux, if_pos hy] at hx
      exact List.mem_cons_of_mem y (ih seen x hx)
    · simp only [dedupFirstAux, if_neg hy] at hx
      rcases List.mem_cons.mp hx with hx | hx
      · exact hx ▸ List.mem_cons_self y ys
      · exact List.mem_cons_of_mem y (ih (y :: seen) x hx)

theorem extract_job_urls_ok_eq (anchors : List Anchor) (limit : Nat) :
    extract_job_urls (Except.ok anchors) limit = (dedupFirst (normStream anchors)).take limit := by
  have h := extractLoop_dedup limit anchors ⟨[], []⟩
  simpa [extract_job_urls, dedupFirst] using h

theorem clickPagerLoop_urls (script : List PageObs) :
    ∀ all : List Str, (clickPagerLoop script all).1 = extractPage (visitedAnchors script) all := by
  induction script with
  | nil => intro all; rfl
  | cons p rest ih =>
    intro all
    have hsplit : ∀ tail : List Anchor,
        extractPage (p.anchors ++ tail) all = extractPage tail (extractPage p.anchors all) := by
      intro tail; simp [extractPage, List.foldl_append]
    cases hb : p.nextButton with
    | none =>
      have ht : terminal p = true := by simp [terminal, hb]
      simp [clickPagerLoop, hb, visitedAnchors, ht, hsplit, extractPage]
    | some disabled =>
      cases disabled with
      | true =>
        have ht : terminal p = true := by simp [terminal, hb]
        simp [clickPagerLoop, hb, visitedAnchors, ht, hsplit, extractPage]
      | false =>
        have ht : terminal p = false := by simp [terminal, hb]
        simp only [clickPagerLoop, hb, visitedAnchors, ht, Bool.false_eq_true,
          if_false, hsplit]
        exact ih (extractPage p.anchors all)

theorem extractPages_flatten (pages : List (List Anchor)) :
    ∀ all : List Str,
      pages.foldl (fun acc p => extractPage p acc) all = extractPage pages.flatten all := by
  induction pages with
  | nil => intro all; rfl
  | cons p rest ih =>
    intro all
    rw [List.foldl_cons, ih, List.flatten_cons]
    simp [extractPage, List.foldl_append]

theorem isPrefixOf_self_append (p r : Str) : p.isPrefixOf (p ++ r) = true := by
  induction p with
  | nil => simp [List.isPrefixOf]
  | cons c cs ih => simp [List.isPrefixOf, ih]

theorem stripQuery_no_query (h : Str) : '?' ∉ stripQuery h := by
  by_cases hq : '?' ∈ h
  · simp only [stripQuery, if_pos hq]
    intro hmem
    have := List.mem_takeWhile_imp hmem
    simp at this
  · simp only [stripQuery, if_neg hq]
    exact hq

theorem normalizeHref_no_query (h : Str) : '?' ∉ normalizeHref h := by
  by_cases hp : httpPat.isPrefixOf (stripQuery h) = true
  · simp only [normalizeHref, if_pos hp]
    exact stripQuery_no_query h
  · simp only [normalizeHref, if_neg hp]
    intro hmem
    rcases List.mem_append.mp hmem with hmem | hmem
    · exact absurd hmem (by decide)
    · exact stripQuery_no_query h hmem

theorem normalizeHref_starts_http (h : Str) : httpPat.isPrefixOf (normalizeHref h) = true := by
  by_cases hp : httpPat.isPrefixOf (stripQuery h) = true
  · simp only [normalizeHref, if_pos hp]
    exact hp
  · simp only [normalizeHref, if_neg hp]
    have horig : linkedinOrigin = httpPat ++ "s://www.linkedin.com".toList := by decide
    rw [horig, List.append_assoc]
    exact isPrefixOf_self_append _ _

theorem anchorUrl_normalize {a : Anchor} {u : Str} (h : anchorUrl a = some u) :
    ∃ s : Str, u = normalizeHref s := by
  cases a with
  | stale => exact absurd h (by simp [anchorUrl])
  | href hrefOpt =>
    cases hrefOpt with
    | none => exact absurd h (by simp [anchorUrl])
    | some s =>
      by_cases hv : s = [] ∨ ¬ hasSubstr jobsViewPat s
      · rw [anchorUrl] at h
        simp only [if_pos hv] at h
        exact absurd h (by simp)
      · rw [anchorUrl] at h
        simp only [if_neg hv, Option.some.injEq] at h
        exact ⟨s, h.symm⟩

theorem mem_normStream_normalize {anchors : List Anchor} {u : Str}
    (h : u ∈ normStream anchors) : ∃ s : Str, u = normalizeHref s := by
  rcases List.mem_filterMap.mp h with ⟨a, _, ha⟩
  exact anchorUrl_normalize ha

/-- C1: for every sequence of anchors scanned in one run — within one page by
`_extract_job_urls` and across all pages by the click-pagination accumulator
of `scrape_saved_jobs.main` — the returned job-URL list contains each
normalized URL at most once and lists URLs in first-seen order (it equals the
first-seen deduplication of the normalized href stream, truncated to the
limit), regardless of duplicates or re-ordering in the input. -/
theorem extract_dedup_first_seen (anchors : List Anchor) (limit : Nat) (script : List PageObs) :
    (extract_job_urls (Except.ok anchors) limit).Nodup
  ∧ extract_job_urls (Except.ok anchors) limit = (dedupFirst (normStream anchors)).take limit
  ∧ ((clickPagerLoop script []).1).Nodup
  ∧ (clickPagerLoop script []).1 = dedupFirst (normStream (visitedAnchors script)) := by
  have hclick : (clickPagerLoop script []).1 = dedupFirst (normStream (visitedAnchors script)) := by
    rw [clickPagerLoop_urls, extractPage_dedup]
    simp [dedupFirst]
  refine ⟨?_, extract_job_urls_ok_eq anchors limit, ?_, hclick⟩
  · rw [extract_job_urls_ok_eq]
    exact List.Nodup.sublist (List.take_sublist _ _) (dedupFirst_nodup _)
  · rw [hclick]
    exact dedupFirst_nodup _

/-- C2: the extractor's output never exceeds `limit` in length, and whenever
the distinct normalized matching URLs outnumber `limit`, exactly `limit` URLs
are returned — the earliest-seen ones. -/
theorem extract_respects_limit (anchors : List Anchor) (limit : Nat) :
    (extract_job_urls (Except.ok anchors) limit).length ≤ limit
  ∧ (limit < (dedupFirst (normStream anchors)).length →
      (extract_job_urls (Except.ok anchors) limit).length = limit
      ∧ extract_job_urls (Except.ok anchors) limit
          = (dedupFirst (normStream anchors)).take limit) := by
  rw [extract_job_urls_ok_eq]
  refine ⟨?_, fun h => ⟨?_, rfl⟩⟩
  · simp only [List.length_take]
    omega
  · simp only [List.length_take]
    omega

theorem extract_respects_limit_witness :
    1 < (dedupFirst (normStream c2_anchors)).length
  ∧ ((extract_job_urls (Except.ok c2_anchors) 1).length = 1
      ∧ extract_job_urls (Except.ok c2_anchors) 1 = (dedupFirst (normStream c2_anchors)).take 1) :=
  ⟨by decide, (extract_respects_limit c2_anchors 1).2 (by decide)⟩

/-- C3 as stated is false on the code: with the spec's three example hrefs
and `limit = 10`, the extractor does not return
`["https://site/jobs/view/111", "https://site/jobs/view/222"]`, because the
base origin the code qualifies against is `https://www.linkedin.com`. -/
theorem site_origin_example_counterexample :
    extract_job_urls (Except.ok c3_anchors) 10 ≠
      ["https://site/jobs/view/111".toList, "https://site/jobs/view/222".toList] := by
  decide

/-- C3 amended: with the three example hrefs and `limit = 10`, extraction
yields exactly `["https://www.linkedin.com/jobs/view/111",
"https://www.linkedin.com/jobs/view/222"]` — query strings stripped and
relative paths qualified against the site's base origin
`https://www.linkedin.com`. -/
theorem linkedin_origin_example :
    extract_job_urls (Except.ok c3_anchors) 10 =
      ["https://www.linkedin.com/jobs/view/111".toList,
       "https://www.linkedin.com/jobs/view/222".toList] := by
  decide

/-- C7: an anchor whose extraction raises is swallowed — the run on a
sequence containing a failing element equals the run on the same sequence
with that element removed, for both `_extract_job_urls` and the per-page
accumulator of `scrape_saved_jobs.main`; in particular a single unreadable
anchor never aborts the run. -/
theorem stale_anchor_skipped (xs ys : List Anchor) (limit : Nat) (all : List Str) :
    extract_job_urls (Except.ok (xs ++ Anchor.stale :: ys)) limit
      = extract_job_urls (Except.ok (xs ++ ys)) limit
  ∧ extractPage (xs ++ Anchor.stale :: ys) all = extractPage (xs ++ ys) all := by
  have hns : normStream (xs ++ Anchor.stale :: ys) = normStream (xs ++ ys) := by
    simp [normStream, List.filterMap_append, List.filterMap_cons, anchorUrl]
  constructor
  · rw [extract_job_urls_ok_eq, extract_job_urls_ok_eq, hns]
  · rw [extractPage_dedup, extractPage_dedup, hns]

/-- C10: every returned job URL contains no `?` and starts with `"http"`; an
href already beginning with `"http"` is kept as-is after query stripping, and
any other href is prefixed with `https://www.linkedin.com`. -/
theorem extracted_urls_normalized (anchors : List Anchor) (limit : Nat)
    (pages : List (List Anchor)) (u h : Str) :
    (u ∈ extract_job_urls (Except.ok anchors) limit → '?' ∉ u ∧ httpPat.isPrefixOf u = true)
  ∧ (u ∈ pages.foldl (fun acc p => extractPage p acc) [] →
      '?' ∉ u ∧ httpPat.isPrefixOf u = true)
  ∧ (httpPat.isPrefixOf (stripQuery h) = true → normalizeHref h = stripQuery h)
  ∧ (httpPat.isPrefixOf (stripQuery h) = false → normalizeHref h = linkedinOrigin ++ stripQuery h) := by
  have hprops : ∀ v : Str, (∃ s : Str, v = normalizeHref s) →
      '?' ∉ v ∧ httpPat.isPrefixOf v = true := by
    rintro v ⟨s, rfl⟩
    exact ⟨normalizeHref_no_query s, normalizeHref_starts_http s⟩
  refine ⟨?_, ?_, ?_, ?_⟩
  · intro hu
    rw [extract_job_urls_ok_eq] at hu
    have hu2 : u ∈ dedupFirst (normStream anchors) :=
      (List.take_sublist _ _).mem hu
    exact hprops u (mem_normStream_normalize (dedupFirstAux_subset _ _ _ hu2))
  · intro hu
    rw [extractPages_flatten, extractPage_dedup] at hu
    simp only [List.nil_append] at hu
    exact hprops u (mem_normStream_normalize (dedupFirstAux_subset _ _ _ hu))
  · intro hp
    simp only [normalizeHref, if_pos hp]
  · intro hp
    simp only [normalizeHref, hp]
    simp

theorem extracted_urls_normalized_witness :
    ("https://www.linkedin.com/jobs/view/9".toList
        ∈ extract_job_urls (Except.ok c10_anchors) 5
      ∧ httpPat.isPrefixOf (stripQuery "https://www.linkedin.com/jobs/view/9?refId=abc".toList) = true)
  ∧ ('?' ∉ ("https://www.linkedin.com/jobs/view/9".toList : Str)
      ∧ httpPat.isPrefixOf ("https://www.linkedin.com/jobs/view/9".toList : Str) = true)
  ∧ normalizeHref "https://www.linkedin.com/jobs/view/9?refId=abc".toList
      = stripQuery "https://www.linkedin.com/jobs/view/9?refId=abc".toList :=
  ⟨⟨by decide, by decide⟩,
   (extracted_urls_normalized c10_anchors 5 []
      ("https://www.linkedin.com/jobs/view/9".toList)
      ("https://www.linkedin.com/jobs/view/9?refId=abc".toList)).1 (by decide),
   (extracted_urls_normalized c10_anchors 5 []
      ("https://www.linkedin.com/jobs/view/9".toList)
      ("https://www.linkedin.com/jobs/view/9?refId=abc".toList)).2.2.1 (by decide)⟩

theorem failWith_spec (ev : List Event) (d : Str) :
    (failWith ev d).2 = Except.error (scrapingErrorMsg d)
  ∧ (failWith ev d).1.getLast? = some (Event.on_error d) := by
  constructor
  · rfl
  · simp [failWith]

/-- C4: the click-pagination loop of `scrape_saved_jobs.main` stops at the
first page whose next-page control is absent or disabled: it issues exactly
as many clicks as there are pages before that one, and its whole outcome is
unchanged when the pages after that one are discarded; in particular it never
issues a click after observing a disabled next-page control. -/
theorem click_pager_stops_at_first_terminal (script : List PageObs) (all : List Str)
    (h : ∃ p ∈ script, terminal p = true) :
    (clickPagerLoop script all).2 = script.findIdx terminal
  ∧ clickPagerLoop script all
      = clickPagerLoop (script.take (script.findIdx terminal + 1)) all := by
  induction script generalizing all with
  | nil => simp at h
  | cons p rest ih =>
    by_cases ht : terminal p = true
    · have hidx : (p :: rest).findIdx terminal = 0 := by
        simp [List.findIdx_cons, ht]
      rw [hidx]
      cases hb : p.nextButton with
      | none =>
        exact ⟨by simp [clickPagerLoop, hb], by simp [clickPagerLoop, hb]⟩
      | some disabled =>
        cases disabled with
        | false => exact absurd ht (by simp [terminal, hb])
        | true => exact ⟨by simp [clickPagerLoop, hb], by simp [clickPagerLoop, hb]⟩
    · have hb : p.nextButton = some false := by
        cases hbv : p.nextButton with
        | none => exact absurd (by simp [terminal, hbv]) ht
        | some dis =>
          cases dis with
          | false => rfl
          | true => exact absurd (by simp [terminal, hbv]) ht
      have hrest : ∃ q ∈ rest, terminal q = true := by
        rcases h with ⟨q, hq, hqt⟩
        rcases List.mem_cons.mp hq with rfl | hq
        · exact absurd hqt ht
        · exact ⟨q, hq, hqt⟩
      have hidx : (p :: rest).findIdx terminal = rest.findIdx terminal + 1 := by
        simp [List.findIdx_cons, ht]
      have ihh := ih (extractPage p.anchors all) hrest
      rw [hidx]
      constructor
      · simp only [clickPagerLoop, hb, Bool.false_eq_true, if_false]
        rw [ihh.1]
      · have htake : (p :: rest).take (rest.findIdx terminal + 1 + 1)
            = p :: rest.take (rest.findIdx terminal + 1) := rfl
        rw [htake]
        simp only [clickPagerLoop, hb, Bool.false_eq_true, if_false]
        rw [ihh.2]

theorem click_pager_stops_witness :
    (∃ p ∈ c4_script, terminal p = true)
  ∧ ((clickPagerLoop c4_script []).2 = c4_script.findIdx terminal
      ∧ clickPagerLoop c4_script []
          = clickPagerLoop (c4_script.take (c4_script.findIdx terminal + 1)) []) :=
  ⟨by decide, click_pager_stops_at_first_terminal c4_script [] (by decide)⟩

/-- C8 (spec-modelled, `BaseScraper.scroll_page_to_bottom` is not under
`src/`): the scroll-pagination loop issues at most `maxScrolls` scrolls even
if the sampled item count never stabilizes, and stops as soon as two
consecutive samples are equal — strictly before exhausting `maxScrolls`
whenever stabilization happens early enough. -/
theorem scroll_pager_termination (counts : Nat → Nat) (maxScrolls : Nat) :
    scrollPager counts maxScrolls ≤ maxScrolls
  ∧ (∀ k, counts (k + 1) = counts k → scrollPager counts maxScrolls ≤ k + 1)
  ∧ (∀ k, k + 1 < maxScrolls → counts (k + 1) = counts k →
      scrollPager counts maxScrolls < maxScrolls) := by
  have hb : ∀ fuel j, scrollPagerAux counts j fuel ≤ j + fuel := by
    intro fuel
    induction fuel with
    | zero => intro j; simp [scrollPagerAux]
    | succ n ihf =>
      intro j
      by_cases hc : counts (j + 1) = counts j
      · simp only [scrollPagerAux, if_pos hc]
        omega
      · simp only [scrollPagerAux, if_neg hc]
        have := ihf (j + 1)
        omega
  have hstab : ∀ fuel j k, j ≤ k → counts (k + 1) = counts k →
      scrollPagerAux counts j fuel ≤ k + 1 := by
    intro fuel
    induction fuel with
    | zero => intro j k hjk _; simp only [scrollPagerAux]; omega
    | succ n ihf =>
      intro j k hjk hck
      by_cases hc : counts (j + 1) = counts j
      · simp only [scrollPagerAux, if_pos hc]
        omega
      · simp only [scrollPagerAux, if_neg hc]
        refine ihf (j + 1) k ?_ hck
        rcases Nat.lt_or_ge j k with hlt | hge
        · omega
        · have heq : j = k := by omega
          subst heq
          exact absurd hck hc
  refine ⟨by simpa using hb maxScrolls 0, fun k hck => hstab maxScrolls 0 k (Nat.zero_le k) hck,
    fun k hlt hck => lt_of_le_of_lt (hstab maxScrolls 0 k (Nat.zero_le k) hck) hlt⟩

theorem scroll_pager_termination_witness :
    scrollPager (fun _ => 10) 5 ≤ 5
  ∧ scrollPager (fun _ => 10) 5 ≤ 0 + 1
  ∧ scrollPager (fun _ => 10) 5 < 5
  ∧ scrollPager (fun _ => 10) 5 = 1 :=
  ⟨(scroll_pager_termination (fun _ => 10) 5).1,
   (scroll_pager_termination (fun _ => 10) 5).2.1 0 rfl,
   (scroll_pager_termination (fun _ => 10) 5).2.2 0 (by decide) rfl,
   by decide⟩

theorem pollFrom_samples_le (detect : Nat → Bool) :
    ∀ fuel a, (pollFrom detect a fuel).samples ≤ fuel := by
  intro fuel
  induction fuel with
  | zero => intro a; simp [pollFrom]
  | succ n ihf =>
    intro a
    by_cases hd : detect a = true
    · simp [pollFrom, hd]
    · simp only [pollFrom, hd, Bool.false_eq_true, if_false]
      have := ihf (a + 1)
      omega

theorem pollFrom_all_false (detect : Nat → Bool) :
    ∀ fuel a, (∀ i, i < fuel → detect (a + i) = false) →
      (pollFrom detect a fuel).logged_in = false ∧ (pollFrom detect a fuel).samples = fuel := by
  intro fuel
  induction fuel with
  | zero => intro a _; simp [pollFrom]
  | succ n ihf =>
    intro a hall
    have hd : detect a = false := by simpa using hall 0 (by omega)
    have hrec := ihf (a + 1) (fun i hi => by
      have h2 := hall (i + 1) (by omega)
      rw [show a + 1 + i = a + (i + 1) by omega]
      exact h2)
    simp only [pollFrom, hd, Bool.false_eq_true, if_false]
    exact ⟨hrec.1, by omega⟩

theorem pollFrom_first_true (detect : Nat → Bool) :
    ∀ fuel a j, j < fuel → detect (a + j) = true → (∀ i, i < j → detect (a + i) = false) →
      (pollFrom detect a fuel).logged_in = true ∧ (pollFrom detect a fuel).samples = j + 1 := by
  intro fuel
  induction fuel with
  | zero => intro a j hj _ _; exact absurd hj (Nat.not_lt_zero j)
  | succ n ihf =>
    intro a j hj hdet hbefore
    cases j with
    | zero =>
      have hd : detect a = true := by simpa using hdet
      simp [pollFrom, hd]
    | succ m =>
      have hd : detect a = false := by simpa using hbefore 0 (by omega)
      have hrec := ihf (a + 1) m (by omega)
        (by rw [show a + 1 + m = a + (m + 1) by omega]; exact hdet)
        (fun i hi => by
          rw [show a + 1 + i = a + (i + 1) by omega]
          exact hbefore (i + 1) (by omega))
      simp only [pollFrom, hd, Bool.false_eq_true, if_false]
      exact ⟨hrec.1, by omega⟩

theorem pollFrom_reports (detect : Nat → Bool) :
    ∀ fuel a, (pollFrom detect a fuel).reports
      = (List.range (pollFrom detect a fuel).samples).map
          (fun j => ((a + j + 1) * 10,
            if detect (a + j) then none else some (300 - (a + j + 1) * 10))) := by
  intro fuel
  induction fuel with
  | zero => intro a; simp [pollFrom]
  | succ n ihf =>
    intro a
    by_cases hd : detect a = true
    · simp [pollFrom, hd, List.range_succ]
    · have hd' : detect a = false := by simpa using hd
      simp only [pollFrom, hd', Bool.false_eq_true, if_false]
      rw [ihf (a + 1), List.range_succ_eq_map, List.map_cons, List.map_map]
      congr 1
      · simp [hd']
      · apply List.map_congr_left
        intro j _
        simp only [Function.comp_apply, Nat.succ_eq_add_one]
        rw [show a + (j + 1) = a + 1 + j by omega]

/-- C5 as stated is false on the code: on the sample that observes a
logged-in state, `create_session` prints only the elapsed time
(`f"[{time_elapsed}s] LOGIN DETECTED!"`) and not the remaining time, so it is
not the case that every sample reports both elapsed and remaining time. -/
theorem login_poll_remaining_counterexample :
    ¬ ∀ r ∈ (create_session_poll (fun _ => true)).reports, (r.2).isSome = true := by
  decide

/-- C5 amended: the login-detection loop of `create_session` samples at a
fixed 10-second interval, reports elapsed time on every sample and remaining
time on every sample that does not observe a logged-in state, terminates at
the first logged-in sample, otherwise terminates after the 30-sample
300-second budget, and never runs longer than the timeout plus one
interval. -/
theorem login_poll_loop (detect : Nat → Bool) (j : Nat) :
    (create_session_poll detect).samples ≤ 30
  ∧ 10 * (create_session_poll detect).samples ≤ 300 + 10
  ∧ ((∀ i, i < 30 → detect i = false) →
      (create_session_poll detect).logged_in = false
      ∧ (create_session_poll detect).samples = 30)
  ∧ (j < 30 → detect j = true → (∀ i, i < j → detect i = false) →
      (create_session_poll detect).logged_in = true
      ∧ (create_session_poll detect).samples = j + 1)
  ∧ (create_session_poll detect).reports
      = (List.range (create_session_poll detect).samples).map
          (fun i => ((i + 1) * 10, if detect i then none else some (300 - (i + 1) * 10))) := by
  have hle : (create_session_poll detect).samples ≤ 30 := pollFrom_samples_le detect 30 0
  refine ⟨hle, by omega, ?_, ?_, ?_⟩
  · intro hall
    exact pollFrom_all_false detect 30 0 (fun i hi => by simpa using hall i hi)
  · intro hj hdet hbefore
    exact pollFrom_first_true detect 30 0 j hj (by simpa using hdet)
      (fun i hi => by simpa using hbefore i hi)
  · have h := pollFrom_reports detect 30 0
    simpa [create_session_poll] using h

theorem login_poll_loop_witness :
    ((2 : Nat) < 30 ∧ (fun i : Nat => i == 2) 2 = true
      ∧ (∀ i, i < 2 → (fun i : Nat => i == 2) i = false))
  ∧ ((create_session_poll (fun i => i == 2)).logged_in = true
      ∧ (create_session_poll (fun i => i == 2)).samples = 2 + 1) :=
  ⟨⟨by decide, by decide, by decide⟩,
   (login_poll_loop (fun i => i == 2) 2).2.2.2.1 (by decide) (by decide) (by decide)⟩

/-- C6: whenever a step of `SavedJobsScraper.scrape`'s `try` block fails with
description `d` (navigation, login check, selector wait, focus, modals,
scrolling), the run reports the failure through `callback.on_error` as its
last event and then raises a `ScrapingError` whose message wraps `d`
(`f"Failed to scrape saved jobs: {e}"`), rather than discarding it. -/
theorem scrape_failure_reports_then_raises (env : ScrapeEnv) (limit : Int) (d : Str)
    (hl : 0 < limit) (hf : firstFailure env = some d) :
    (scrape env limit).2 = Except.error (scrapingErrorMsg d)
  ∧ (scrape env limit).1.getLast? = some (Event.on_error d)
  ∧ d <:+ scrapingErrorMsg d := by
  have hnl : ¬ limit ≤ 0 := by omega
  have hsuffix : d <:+ scrapingErrorMsg d :=
    List.suffix_append ("Failed to scrape saved jobs: ".toList) d
  cases hn : env.navigate_and_wait with
  | some d0 =>
    have hd : d0 = d := by simpa [firstFailure, hn] using hf
    subst hd
    have hs : scrape env limit = failWith
        ([Event.on_start "SavedJobs".toList savedJobsUrl] ++ [Event.navigate savedJobsUrl]) d0 := by
      simp [scrape, hnl, hn]
    exact ⟨by rw [hs]; exact (failWith_spec _ _).1, by rw [hs]; exact (failWith_spec _ _).2, hsuffix⟩
  | none =>
  cases he : env.ensure_logged_in with
  | some d0 =>
    have hd : d0 = d := by simpa [firstFailure, hn, he] using hf
    subst hd
    have hs : scrape env limit = failWith
        ([Event.on_start "SavedJobs".toList savedJobsUrl] ++ [Event.navigate savedJobsUrl]
          ++ [Event.on_progress "Navigated to saved jobs".toList 10, Event.check_login]) d0 := by
      simp [scrape, hnl, hn, he]
    exact ⟨by rw [hs]; exact (failWith_spec _ _).1, by rw [hs]; exact (failWith_spec _ _).2, hsuffix⟩
  | none =>
  cases hw : env.wait_for_selector with
  | some d0 =>
    have hd : d0 = d := by simpa [firstFailure, hn, he, hw] using hf
    subst hd
    have hs : scrape env limit = failWith
        ([Event.on_start "SavedJobs".toList savedJobsUrl] ++ [Event.navigate savedJobsUrl]
          ++ [Event.on_progress "Navigated to saved jobs".toList 10, Event.check_login]
          ++ [Event.wait_selector "main".toList]) d0 := by
      simp [scrape, hnl, hn, he, hw]
    exact ⟨by rw [hs]; exact (failWith_spec _ _).1, by rw [hs]; exact (failWith_spec _ _).2, hsuffix⟩
  | none =>
  cases hwf : env.wait_and_focus with
  | some d0 =>
    have hd : d0 = d := by simpa [firstFailure, hn, he, hw, hwf] using hf
    subst hd
    have hs : scrape env limit = failWith
        ([Event.on_start "SavedJobs".toList savedJobsUrl] ++ [Event.navigate savedJobsUrl]
          ++ [Event.on_progress "Navigated to saved jobs".toList 10, Event.check_login]
          ++ [Event.wait_selector "main".toList] ++ [Event.focus]) d0 := by
      simp [scrape, hnl, hn, he, hw, hwf]
    exact ⟨by rw [hs]; exact (failWith_spec _ _).1, by rw [hs]; exact (failWith_spec _ _).2, hsuffix⟩
  | none =>
  cases hc : env.close_modals with
  | some d0 =>
    have hd : d0 = d := by simpa [firstFailure, hn, he, hw, hwf, hc] using hf
    subst hd
    have hs : scrape env limit = failWith
        ([Event.on_start "SavedJobs".toList savedJobsUrl] ++ [Event.navigate savedJobsUrl]
          ++ [Event.on_progress "Navigated to saved jobs".toList 10, Event.check_login]
          ++ [Event.wait_selector "main".toList] ++ [Event.focus]
          ++ [Event.close_modals]) d0 := by
      simp [scrape, hnl, hn, he, hw, hwf, hc]
    exact ⟨by rw [hs]; exact (failWith_spec _ _).1, by rw [hs]; exact (failWith_spec _ _).2, hsuffix⟩
  | none =>
  cases hsc : env.scroll_page_to_bottom with
  | some d0 =>
    have hd : d0 = d := by simpa [firstFailure, hn, he, hw, hwf, hc, hsc] using hf
    subst hd
    have hs : scrape env limit = failWith
        ([Event.on_start "SavedJobs".toList savedJobsUrl] ++ [Event.navigate savedJobsUrl]
          ++ [Event.on_progress "Navigated to saved jobs".toList 10, Event.check_login]
          ++ [Event.wait_selector "main".toList] ++ [Event.focus]
          ++ [Event.close_modals] ++ [Event.scroll]) d0 := by
      simp [scrape, hnl, hn, he, hw, hwf, hc, hsc]
    exact ⟨by rw [hs]; exact (failWith_spec _ _).1, by rw [hs]; exact (failWith_spec _ _).2, hsuffix⟩
  | none =>
    exact absurd hf (by simp [firstFailure, hn, he, hw, hwf, hc, hsc])

theorem scrape_failure_witness :
    ((0 : Int) < 1 ∧ firstFailure c6_env = some "net::ERR_TIMED_OUT".toList)
  ∧ ((scrape c6_env 1).2 = Except.error (scrapingErrorMsg "net::ERR_TIMED_OUT".toList)
      ∧ (scrape c6_env 1).1.getLast? = some (Event.on_error "net::ERR_TIMED_OUT".toList)
      ∧ "net::ERR_TIMED_OUT".toList <:+ scrapingErrorMsg "net::ERR_TIMED_OUT".toList) :=
  ⟨⟨by decide, rfl⟩,
   scrape_failure_reports_then_raises c6_env 1 ("net::ERR_TIMED_OUT".toList) (by decide) rfl⟩

/-- C9: for every limit at most `0`, `SavedJobsScraper.scrape` returns the
empty list immediately: the whole run consists of the single `on_start`
report — no navigation, login check, selector wait, scrolling, extraction,
`on_progress` or `on_complete` takes place. -/
theorem scrape_nonpositive_limit (env : ScrapeEnv) (limit : Int) (h : limit ≤ 0) :
    scrape env limit = ([Event.on_start "SavedJobs".toList savedJobsUrl], Except.ok []) := by
  simp [scrape, h]

theorem scrape_nonpositive_limit_witness :
    ((-2 : Int) ≤ 0)
  ∧ scrape c9_env (-2) = ([Event.on_start "SavedJobs".toList savedJobsUrl], Except.ok []) :=
  ⟨by decide, scrape_nonpositive_limit c9_env (-2) (by decide)⟩

end LinkedinScraper
